import Mathlib

/-!
Shallow embedding of the jotform-slideshow serverless handlers: the
reconciliation backfill (`netlify/functions/sync.js`), the like mutator
(`netlify/functions/like.js`) and the webhook insert
(`netlify/functions/webhook.js`), together with the JSONBin read helper
(`getBin`) shared by them.  Remote calls are modelled by explicit
parameters: a store read is an `Option (List SubmissionRecord)` (`none`
for an unreachable store or a non-array document), the image relay is a
function `String → Except String String` (error message or permanent
URL), and a store write is recorded in the outcome as the document that
would be `PUT`.
-/

/-- A JSON answer value inside an upstream Jotform submission: either a
plain string or an array of strings (file-upload answers). -/
inductive AnswerVal where
  | str (s : String)
  | arr (l : List String)
deriving DecidableEq, Repr

/-- One entry of `sub.answers` in the Jotform payload: a control type tag
and an optional answer value (`none` models an absent `answer` field). -/
structure Answer where
  type : String
  answer : Option AnswerVal
deriving DecidableEq, Repr

/-- An upstream Jotform submission as consumed by `sync.js`: identifier,
optional `status` string, creation timestamp and the ordered list of
answers (`Object.values(sub.answers)`). -/
structure Submission where
  id : String
  status : Option String
  created_at : String
  answers : List Answer
deriving DecidableEq, Repr

/-- A record of the JSONBin store document.  Absent JSON fields are
`none`; `init` models the truthiness of the `init` sentinel flag used to
initialise an empty bin. -/
structure SubmissionRecord where
  name : Option String
  imageUrl : Option String
  submissionId : Option String
  timestamp : Option String
  likes : Option Nat
  init : Bool
deriving DecidableEq, Repr

/-- `x.toUpperCase()` for the ASCII strings at hand, computed over the
character list (extensionally the same as `String.toUpper`, but written
so that it reduces inside the kernel). -/
def jsToUpperCase (s : String) : String :=
  String.mk (s.data.map Char.toUpper)

/-- `x.trim()`, computed over the character list (extensionally the same
as `String.trim`, but written so that it reduces inside the kernel). -/
def jsTrim (s : String) : String :=
  String.mk (((s.data.dropWhile Char.isWhitespace).reverse.dropWhile Char.isWhitespace).reverse)

/-- JavaScript truthiness of a possibly-absent string: `undefined`,
`null` and the empty string are falsy. -/
def optStrTruthy : Option String → Bool
  | none => false
  | some s => !s.isEmpty

/-- `s.likes || 0` — a missing (or zero) like counter reads as `0`. -/
def likesVal : Option Nat → Nat
  | none => 0
  | some n => n

/-- `String(x)` applied to a possibly-absent string (`String(undefined)`
is the literal text `"undefined"`). -/
def jsString : Option String → String
  | none => "undefined"
  | some s => s

/-- `String(x)` applied to a possibly-absent answer value: arrays
stringify as their comma-joined elements. -/
def avToString : Option AnswerVal → String
  | none => "undefined"
  | some (.str s) => s
  | some (.arr l) => String.intercalate "," l

/-- JavaScript truthiness of an answer value: an absent answer and the
empty string are falsy; every array (even empty) is truthy. -/
def ansTruthy : Option AnswerVal → Bool
  | none => false
  | some (.str s) => !s.isEmpty
  | some (.arr _) => true

/-- `Array.isArray(ans.answer) ? ans.answer[0] : ans.answer` — the value
assigned to `fileUrl`; indexing an empty array yields `undefined`. -/
def avFirst : Option AnswerVal → Option String
  | none => none
  | some (.str s) => some s
  | some (.arr []) => none
  | some (.arr (h :: _)) => some h

/-- The `for (const ans of Object.values(answers))` loop of `sync.js`
(lines 102-105): pick the first truthy textbox answer as `name` (trimmed)
and the first truthy file-upload answer as `fileUrl`. -/
def scanAnswers : Option String → Option String → List Answer → Option String × Option String
  | nm, fileUrl, [] => (nm, fileUrl)
  | nm, fileUrl, ans :: rest =>
    let nm' := if !(optStrTruthy nm) && ans.type == "control_textbox" && ansTruthy ans.answer
      then some (jsTrim (avToString ans.answer)) else nm
    let fileUrl' := if !(optStrTruthy fileUrl) && ans.type == "control_fileupload" && ansTruthy ans.answer
      then avFirst ans.answer else fileUrl
    scanAnswers nm' fileUrl' rest

/-- The `name` extracted from a submission's answers. -/
def subName (sub : Submission) : Option String :=
  (scanAnswers none none sub.answers).1

/-- The `fileUrl` extracted from a submission's answers. -/
def subFile (sub : Submission) : Option String :=
  (scanAnswers none none sub.answers).2

/-- `String(sub.status || '').toUpperCase() === 'ACTIVE'` — the
case-insensitive active test used to build `activeJotformMap`
(`sync.js` line 60). -/
def isActiveMap (sub : Submission) : Bool :=
  (jsToUpperCase ((sub.status).getD "")) == "ACTIVE"

/-- `String(sub.status).toUpperCase() === 'ACTIVE'` — the active test
used when collecting `missingFromBin` (`sync.js` line 84). -/
def isActiveCheck (sub : Submission) : Bool :=
  (jsToUpperCase (jsString sub.status)) == "ACTIVE"

/-- The key set of `activeJotformMap`: identifiers of the upstream
submissions that pass the active test. -/
def activeIds (upstream : List Submission) : List String :=
  (upstream.filter isActiveMap).map (fun sub => sub.id)

/-- The prune predicate (`sync.js` lines 72-77 and 135-138): keep a
record if its `submissionId` is falsy, else iff that identifier is a key
of `activeJotformMap`. -/
def keepEntry (aIds : List String) (e : SubmissionRecord) : Bool :=
  if optStrTruthy e.submissionId then aIds.contains (e.submissionId.getD "") else true

/-- `entries.map(e => e.submissionId).filter(Boolean)` — the truthy
identifiers appearing in a record list, in order. -/
def truthyIds (l : List SubmissionRecord) : List String :=
  (l.filterMap (fun e => e.submissionId)).filter (fun s => !s.isEmpty)

/-- `getBin` (`sync.js` lines 20-27, `webhook.js` likewise): an
unreachable store or non-array document reads as `[]`; a read document
is returned with the `init` sentinel records filtered out. -/
def getBin (readRes : Option (List SubmissionRecord)) : List SubmissionRecord :=
  match readRes with
  | none => []
  | some data => data.filter (fun s => !s.init)

/-- `missingFromBin` (`sync.js` lines 82-86): upstream submissions that
are active and whose identifier is not among the stored ones. -/
def missingFromBin (upstream : List Submission) (ids : List String) : List Submission :=
  upstream.filter (fun sub => isActiveCheck sub && !(ids.contains sub.id))

/-- `missingFromBin.slice(offset, offset + limit)` for natural-number
query parameters. -/
def batchSel (missing : List Submission) (offset limit : Nat) : List Submission :=
  (missing.drop offset).take limit

/-- The new store record built for a successfully relayed submission
(`sync.js` lines 110-116): `likes` initialised to `0`. -/
def mkRecord (sub : Submission) (imageUrl : String) (nm : Option String) : SubmissionRecord :=
  ⟨nm, some imageUrl, some sub.id, some sub.created_at, some 0, false⟩

/-- Accumulated result of the per-batch loop of `sync.js`
(lines 97-125): staged new entries, `processed`, `failed`, `errors`. -/
structure BatchResult where
  newEntries : List SubmissionRecord
  processed : Nat
  failed : Nat
  errors : List String
deriving DecidableEq, Repr

/-- The `for (const sub of batch)` loop of `sync.js` (lines 97-125): an
item without a truthy `fileUrl` is skipped; a successful relay stages a
record and bumps `processed`; a failed relay bumps `failed` and records
`"<id>: <message>"`, and the loop continues. -/
def processBatch (relay : String → Except String String) : List Submission → BatchResult
  | [] => ⟨[], 0, 0, []⟩
  | sub :: rest =>
    let r := processBatch relay rest
    if optStrTruthy (subFile sub) then
      match relay ((subFile sub).getD "") with
      | .ok url => ⟨mkRecord sub url (subName sub) :: r.newEntries, r.processed + 1, r.failed, r.errors⟩
      | .error m => ⟨r.newEntries, r.processed, r.failed + 1, (sub.id ++ ": " ++ m) :: r.errors⟩
    else r

/-- The outcome returned by an item of the batch: `none` when the item
has no truthy file locator (it is skipped), otherwise the relay's
verdict on that locator. -/
def itemOutcome (relay : String → Except String String) (sub : Submission) : Option (Except String String) :=
  if optStrTruthy (subFile sub) then some (relay ((subFile sub).getD "")) else none

/-- An item counts towards `processed` iff it had a file locator and the
relay succeeded. -/
def itemSuccess (relay : String → Except String String) (sub : Submission) : Bool :=
  match itemOutcome relay sub with
  | some (.ok _) => true
  | _ => false

/-- An item counts towards `failed` iff it had a file locator and the
relay failed. -/
def itemFailure (relay : String → Except String String) (sub : Submission) : Bool :=
  match itemOutcome relay sub with
  | some (.error _) => true
  | _ => false

/-- The JSON body of the `sync` response together with the document the
handler would `PUT` back (`none` when no write happens). -/
structure SyncOutcome where
  processed : Nat
  failed : Nat
  errors : List String
  removed : Nat
  totalMissing : Nat
  offset : Nat
  hasMore : Bool
  nextOffset : Option Nat
  write : Option (List SubmissionRecord)
deriving DecidableEq, Repr

/-- The `sync.js` handler body (lines 52-158) over explicit inputs:
`read1` is the first store read, `read2` the re-read before the
merge-write, `relay` the `processImage` call. -/
def reconcile (read1 read2 : Option (List SubmissionRecord)) (upstream : List Submission)
    (offset limit : Nat) (relay : String → Except String String) : SyncOutcome :=
  let existingEntries := getBin read1
  let aIds := activeIds upstream
  let prunedEntries := existingEntries.filter (keepEntry aIds)
  let removedCount := existingEntries.length - prunedEntries.length
  let currentIdsInBin := truthyIds prunedEntries
  let missing := missingFromBin upstream currentIdsInBin
  let batch := batchSel missing offset limit
  let hasMore := decide (offset + limit < missing.length)
  let br := processBatch relay batch
  let write :=
    if br.newEntries.length > 0 || removedCount > 0 then
      let latestBin := getBin read2
      let finalPruned := latestBin.filter (keepEntry aIds)
      let finalIds := truthyIds finalPruned
      let filteredNewEntries := br.newEntries.filter (fun e => !(finalIds.contains (e.submissionId.getD "")))
      some (filteredNewEntries ++ finalPruned)
    else none
  ⟨br.processed, br.failed, br.errors, removedCount, missing.length, offset, hasMore,
    if hasMore then some (offset + limit) else none, write⟩

/-- The missing set a reconciliation call computes from a raw store
document and an upstream snapshot. -/
def missingOf (store0 : List SubmissionRecord) (upstream : List Submission) : List Submission :=
  missingFromBin upstream
    (truthyIds ((getBin (some store0)).filter (keepEntry (activeIds upstream))))

/-- One sequential reconciliation call against a store document: both
reads see the same document and the write (if any) replaces it. -/
def applySync (store : List SubmissionRecord) (upstream : List Submission)
    (offset limit : Nat) (relay : String → Except String String) : List SubmissionRecord :=
  (reconcile (some store) (some store) upstream offset limit relay).write.getD store

/-- Outcome of the `like.js` handler: HTTP status, the `likes` value of
the response body, and the document `PUT` back (if any). -/
structure LikeOutcome where
  statusCode : Nat
  likes : Option Nat
  written : Option (List SubmissionRecord)
deriving DecidableEq, Repr

/-- The per-record update of the `submissions.map` in `like.js`
(lines 46-53): bump `likes` on a strict identifier match. -/
def bumpIfMatch (sid : String) (s : SubmissionRecord) : SubmissionRecord :=
  if s.submissionId == some sid then { s with likes := some (likesVal s.likes + 1) } else s

/-- The `like.js` handler body (lines 24-71): `400` on a falsy request
identifier, `500` on a failed or non-array store read, `404` when no
record matches, otherwise every matching record is bumped, the whole
document is `PUT` back and the response carries the `likes` of the last
matching record after its bump (`putOk` models the `PUT` succeeding). -/
def like (readRes : Option (List SubmissionRecord)) (putOk : Bool) (reqId : Option String) : LikeOutcome :=
  if !(optStrTruthy reqId) then ⟨400, none, none⟩
  else
    match readRes with
    | none => ⟨500, none, none⟩
    | some submissions =>
      let sid := reqId.getD ""
      let updated := submissions.map (bumpIfMatch sid)
      let found := submissions.any (fun s => s.submissionId == some sid)
      if found then
        let newLikes :=
          match (submissions.filter (fun s => s.submissionId == some sid)).getLast? with
          | some s => likesVal s.likes + 1
          | none => 0
        if putOk then ⟨200, some newLikes, some updated⟩ else ⟨500, none, some updated⟩
      else ⟨404, none, none⟩

/-- Outcome of the webhook store step: HTTP status, whether the call was
skipped as a duplicate, and the document `PUT` back (if any). -/
structure WebhookOutcome where
  statusCode : Nat
  skipped : Bool
  write : Option (List SubmissionRecord)
deriving DecidableEq, Repr

/-- `fields.submissionID || null` — an absent or empty identifier
normalises to `null`. -/
def normId : Option String → Option String
  | none => none
  | some s => if s.isEmpty then none else some s

/-- The store step of the `webhook.js` handler (lines 178-187), after
the image has been relayed to `imageUrl`: skip without writing when the
normalised identifier already matches a stored record, else prepend the
new record (which has no `likes` field) and write back. -/
def webhookInsert (readRes : Option (List SubmissionRecord)) (nm : Option String)
    (imageUrl : String) (subIdRaw : Option String) (ts : String) : WebhookOutcome :=
  let submissions := getBin readRes
  let sid := normId subIdRaw
  if sid.isSome && submissions.any (fun r => r.submissionId == sid) then
    ⟨200, true, none⟩
  else
    ⟨200, false, some (⟨nm, some imageUrl, sid, some ts, none, false⟩ :: submissions)⟩

/-- A sequential store operation: a reconciliation call or a webhook
insert-if-absent call. -/
inductive StoreOp where
  | sync (upstream : List Submission) (offset limit : Nat) (relay : String → Except String String)
  | insert (nm : Option String) (imageUrl : String) (subIdRaw : Option String) (ts : String)

/-- Apply one store operation to the store document. -/
def applyOp (store : List SubmissionRecord) : StoreOp → List SubmissionRecord
  | .sync up o l relay => applySync store up o l relay
  | .insert nm url sid ts => (webhookInsert (some store) nm url sid ts).write.getD store

/-- Apply a sequence of store operations in order. -/
def applyOps (store : List SubmissionRecord) (ops : List StoreOp) : List SubmissionRecord :=
  ops.foldl applyOp store

/-- Side condition of an operation: a reconciliation call carries an
upstream snapshot with pairwise-distinct identifiers; a webhook insert
carries none. -/
def opOk : StoreOp → Prop
  | .sync up _ _ _ => (up.map (fun sub => sub.id)).Nodup
  | .insert _ _ _ _ => True

/-- Concrete upstream fixture: active submission `A` with a name and a
file-upload answer. -/
def subA : Submission :=
  ⟨"A", some "ACTIVE", "t1",
    [⟨"control_textbox", some (.str "Mario")⟩,
     ⟨"control_fileupload", some (.arr ["u-a"])⟩]⟩

/-- Concrete upstream fixture: active submission `B` with a name and a
file-upload answer. -/
def subB : Submission :=
  ⟨"B", some "ACTIVE", "t2",
    [⟨"control_textbox", some (.str "Luigi")⟩,
     ⟨"control_fileupload", some (.arr ["u-b"])⟩]⟩

/-- Concrete fixture: a second active submission carrying the same
identifier as `subA`. -/
def subA2 : Submission :=
  ⟨"A", some "active", "t3",
    [⟨"control_textbox", some (.str "Wario")⟩,
     ⟨"control_fileupload", some (.arr ["u-a2"])⟩]⟩

/-- Concrete relay fixture that always succeeds, returning the locator
itself as the permanent URL. -/
def relayOk : String → Except String String := fun u => .ok u


/-! ### Projection lemmas for `reconcile` -/

theorem reconcile_removed (r1 r2 : Option (List SubmissionRecord)) (up : List Submission)
    (o l : Nat) (relay : String → Except String String) :
    (reconcile r1 r2 up o l relay).removed =
      (getBin r1).length - ((getBin r1).filter (keepEntry (activeIds up))).length := rfl

theorem reconcile_totalMissing (r1 r2 : Option (List SubmissionRecord)) (up : List Submission)
    (o l : Nat) (relay : String → Except String String) :
    (reconcile r1 r2 up o l relay).totalMissing =
      (missingFromBin up (truthyIds ((getBin r1).filter (keepEntry (activeIds up))))).length := rfl

theorem reconcile_processed (r1 r2 : Option (List SubmissionRecord)) (up : List Submission)
    (o l : Nat) (relay : String → Except String String) :
    (reconcile r1 r2 up o l relay).processed =
      (processBatch relay (batchSel
        (missingFromBin up (truthyIds ((getBin r1).filter (keepEntry (activeIds up))))) o l)).processed := rfl

theorem reconcile_failed (r1 r2 : Option (List SubmissionRecord)) (up : List Submission)
    (o l : Nat) (relay : String → Except String String) :
    (reconcile r1 r2 up o l relay).failed =
      (processBatch relay (batchSel
        (missingFromBin up (truthyIds ((getBin r1).filter (keepEntry (activeIds up))))) o l)).failed := rfl

theorem reconcile_errors (r1 r2 : Option (List SubmissionRecord)) (up : List Submission)
    (o l : Nat) (relay : String → Except String String) :
    (reconcile r1 r2 up o l relay).errors =
      (processBatch relay (batchSel
        (missingFromBin up (truthyIds ((getBin r1).filter (keepEntry (activeIds up))))) o l)).errors := rfl

theorem reconcile_hasMore (r1 r2 : Option (List SubmissionRecord)) (up : List Submission)
    (o l : Nat) (relay : String → Except String String) :
    (reconcile r1 r2 up o l relay).hasMore =
      decide (o + l <
        (missingFromBin up (truthyIds ((getBin r1).filter (keepEntry (activeIds up))))).length) := rfl

theorem reconcile_write (r1 r2 : Option (List SubmissionRecord)) (up : List Submission)
    (o l : Nat) (relay : String → Except String String) :
    (reconcile r1 r2 up o l relay).write =
      (if (processBatch relay (batchSel
            (missingFromBin up (truthyIds ((getBin r1).filter (keepEntry (activeIds up))))) o l)).newEntries.length > 0
          ∨ 0 < (getBin r1).length - ((getBin r1).filter (keepEntry (activeIds up))).length then
        some ((processBatch relay (batchSel
            (missingFromBin up (truthyIds ((getBin r1).filter (keepEntry (activeIds up))))) o l)).newEntries.filter
             (fun e => !((truthyIds ((getBin r2).filter (keepEntry (activeIds up)))).contains (e.submissionId.getD "")))
          ++ (getBin r2).filter (keepEntry (activeIds up)))
      else none) := by
  simp only [reconcile, Bool.or_eq_true, decide_eq_true_eq, gt_iff_lt, Nat.lt_irrefl]

/-! ### Helper lemmas about the building blocks -/

theorem contains_eq_true_iff (l : List String) (a : String) : l.contains a = true ↔ a ∈ l := by
  simp [List.contains, List.elem_iff]

theorem isActiveCheck_eq (sub : Submission) : isActiveCheck sub = isActiveMap sub := by
  cases h : sub.status with
  | none =>
    simp only [isActiveCheck, isActiveMap, h, jsString, Option.getD]
    decide
  | some s =>
    simp only [isActiveCheck, isActiveMap, h, jsString, Option.getD]

theorem keepEntry_eq_true_iff (up : List Submission) (r : SubmissionRecord) :
    keepEntry (activeIds up) r = true ↔
      (optStrTruthy r.submissionId = false ∨
        ∃ sub ∈ up, isActiveMap sub = true ∧ some sub.id = r.submissionId) := by
  unfold keepEntry
  cases ht : optStrTruthy r.submissionId with
  | false => simp
  | true =>
    cases hr : r.submissionId with
    | none => rw [hr] at ht; simp [optStrTruthy] at ht
    | some s =>
      simp only [if_true, Option.getD_some, ht]
      rw [contains_eq_true_iff]
      simp only [activeIds, List.mem_map, List.mem_filter]
      constructor
      · rintro ⟨sub, ⟨hmem, hact⟩, hid⟩
        exact Or.inr ⟨sub, hmem, hact, by rw [hid]⟩
      · rintro (hfalse | ⟨sub, hmem, hact, hid⟩)
        · cases hfalse
        · exact ⟨sub, ⟨hmem, hact⟩, by injection hid⟩

theorem processBatch_newEntries (relay : String → Except String String) (b : List Submission) :
    (processBatch relay b).newEntries = b.filterMap (fun sub =>
      match itemOutcome relay sub with
      | some (.ok url) => some (mkRecord sub url (subName sub))
      | _ => none) := by
  induction b with
  | nil => rfl
  | cons sub rest ih =>
    cases h : optStrTruthy (subFile sub) with
    | false => simp [processBatch, List.filterMap_cons, itemOutcome, h, ih]
    | true =>
      cases hr : relay ((subFile sub).getD "") with
      | ok url => simp [processBatch, List.filterMap_cons, itemOutcome, h, hr, ih]
      | error m => simp [processBatch, List.filterMap_cons, itemOutcome, h, hr, ih]

theorem processBatch_processed (relay : String → Except String String) (b : List Submission) :
    (processBatch relay b).processed = b.countP (itemSuccess relay) := by
  induction b with
  | nil => rfl
  | cons sub rest ih =>
    cases h : optStrTruthy (subFile sub) with
    | false => simp [processBatch, List.countP_cons, itemSuccess, itemOutcome, h, ih]
    | true =>
      cases hr : relay ((subFile sub).getD "") with
      | ok url => simp [processBatch, List.countP_cons, itemSuccess, itemOutcome, h, hr, ih]
      | error m => simp [processBatch, List.countP_cons, itemSuccess, itemOutcome, h, hr, ih]

theorem processBatch_failed (relay : String → Except String String) (b : List Submission) :
    (processBatch relay b).failed = b.countP (itemFailure relay) := by
  induction b with
  | nil => rfl
  | cons sub rest ih =>
    cases h : optStrTruthy (subFile sub) with
    | false => simp [processBatch, List.countP_cons, itemFailure, itemOutcome, h, ih]
    | true =>
      cases hr : relay ((subFile sub).getD "") with
      | ok url => simp [processBatch, List.countP_cons, itemFailure, itemOutcome, h, hr, ih]
      | error m => simp [processBatch, List.countP_cons, itemFailure, itemOutcome, h, hr, ih]

theorem processBatch_errors (relay : String → Except String String) (b : List Submission) :
    (processBatch relay b).errors = b.filterMap (fun sub =>
      match itemOutcome relay sub with
      | some (.error m) => some (sub.id ++ ": " ++ m)
      | _ => none) := by
  induction b with
  | nil => rfl
  | cons sub rest ih =>
    cases h : optStrTruthy (subFile sub) with
    | false => simp [processBatch, List.filterMap_cons, itemOutcome, h, ih]
    | true =>
      cases hr : relay ((subFile sub).getD "") with
      | ok url => simp [processBatch, List.filterMap_cons, itemOutcome, h, hr, ih]
      | error m => simp [processBatch, List.filterMap_cons, itemOutcome, h, hr, ih]

theorem processBatch_mem_newEntries (relay : String → Except String String) (b : List Submission)
    (r : SubmissionRecord) :
    r ∈ (processBatch relay b).newEntries ↔
      ∃ sub ∈ b, ∃ url, itemOutcome relay sub = some (.ok url) ∧ r = mkRecord sub url (subName sub) := by
  rw [processBatch_newEntries, List.mem_filterMap]
  constructor
  · rintro ⟨sub, hmem, hsome⟩
    cases ho : itemOutcome relay sub with
    | none => rw [ho] at hsome; cases hsome
    | some v =>
      cases v with
      | ok url =>
        rw [ho] at hsome
        exact ⟨sub, hmem, url, ho, by injection hsome with h; exact h.symm⟩
      | error m => rw [ho] at hsome; cases hsome
  · rintro ⟨sub, hmem, url, ho, hr⟩
    exact ⟨sub, hmem, by rw [ho, hr]⟩

theorem processBatch_newEntries_length (relay : String → Except String String) (b : List Submission) :
    (processBatch relay b).newEntries.length = (processBatch relay b).processed := by
  induction b with
  | nil => rfl
  | cons sub rest ih =>
    cases h : optStrTruthy (subFile sub) with
    | false => simp [processBatch, h, ih]
    | true =>
      cases hr : relay ((subFile sub).getD "") with
      | ok url => simp [processBatch, h, hr, ih]
      | error m => simp [processBatch, h, hr, ih]

theorem processBatch_likes_zero (relay : String → Except String String) (b : List Submission)
    (r : SubmissionRecord) (hr : r ∈ (processBatch relay b).newEntries) : r.likes = some 0 := by
  rcases (processBatch_mem_newEntries relay b r).mp hr with ⟨sub, _, url, _, hrec⟩
  rw [hrec]; rfl

theorem length_sub_filter_length (p : SubmissionRecord → Bool) (l : List SubmissionRecord) :
    l.length - (l.filter p).length = (l.filter (fun a => !p a)).length := by
  rw [← List.countP_eq_length_filter, ← List.countP_eq_length_filter,
    List.length_eq_countP_add_countP p l]
  have h : List.countP (fun a => decide ¬p a = true) l = List.countP (fun a => !p a) l := by
    apply List.countP_congr
    intro a _
    cases p a <;> simp
  rw [h, Nat.add_sub_cancel_left]

theorem filter_eq_self_of_removed_zero (p : SubmissionRecord → Bool) (l : List SubmissionRecord)
    (h : l.length - (l.filter p).length = 0) : l.filter p = l := by
  rw [List.filter_eq_self]
  intro a ha
  by_contra hpa
  have hmem : a ∈ l.filter (fun x => !p x) := by
    rw [List.mem_filter]
    refine ⟨ha, ?_⟩
    cases hp : p a with
    | false => rfl
    | true => exact absurd hp hpa
  rw [length_sub_filter_length] at h
  rw [List.length_eq_zero] at h
  rw [h] at hmem
  cases hmem

/-- C7: in the reconciliation batch loop, processed in order, an item
with no truthy image locator is skipped and counts towards neither
`processed` nor `failed` nor `errors`; a successful relay stages a new
record with `likes = 0` and counts towards `processed`; a failed relay
counts towards `failed` and records the string `"<id>: <message>"`, and
no per-item failure aborts the remaining batch — the counts and lists
are exactly the ones accumulated over the whole batch. -/
theorem batch_loop_contract (relay : String → Except String String) (batch : List Submission) :
    (processBatch relay batch).processed = batch.countP (itemSuccess relay)
  ∧ (processBatch relay batch).failed = batch.countP (itemFailure relay)
  ∧ (processBatch relay batch).errors = batch.filterMap (fun sub =>
      match itemOutcome relay sub with
      | some (.error m) => some (sub.id ++ ": " ++ m)
      | _ => none)
  ∧ (processBatch relay batch).newEntries = batch.filterMap (fun sub =>
      match itemOutcome relay sub with
      | some (.ok url) => some (mkRecord sub url (subName sub))
      | _ => none)
  ∧ ∀ r ∈ (processBatch relay batch).newEntries, r.likes = some 0 :=
  ⟨processBatch_processed relay batch, processBatch_failed relay batch,
    processBatch_errors relay batch, processBatch_newEntries relay batch,
    fun r hr => processBatch_likes_zero relay batch r hr⟩

/-- Witness for C7 at a concrete batch: one successfully relayed item,
whose staged record has `likes = 0`. -/
theorem batch_loop_contract_witness :
    (processBatch relayOk [subA]).processed = [subA].countP (itemSuccess relayOk)
  ∧ (mkRecord subA "u-a" (some "Mario")).likes = some 0 :=
  ⟨(batch_loop_contract relayOk [subA]).1,
    (batch_loop_contract relayOk [subA]).2.2.2.2 (mkRecord subA "u-a" (some "Mario")) (by decide)⟩

/-- C8: `fetchAll` (`getBin`) returns the empty sequence whenever the
store read is unsuccessful or the stored document is empty, and for
every successfully read document it returns exactly the document's
records with the `init` sentinel records filtered out. -/
theorem fetchAll_contract :
    getBin none = ([] : List SubmissionRecord)
  ∧ getBin (some ([] : List SubmissionRecord)) = []
  ∧ ∀ (l : List SubmissionRecord) (r : SubmissionRecord),
      r ∈ getBin (some l) ↔ (r ∈ l ∧ r.init = false) :=
  ⟨rfl, rfl, by
    intro l r
    simp [getBin, List.mem_filter]⟩

theorem reconcile_nextOffset (r1 r2 : Option (List SubmissionRecord)) (up : List Submission)
    (o l : Nat) (relay : String → Except String String) :
    (reconcile r1 r2 up o l relay).nextOffset =
      (if (reconcile r1 r2 up o l relay).hasMore then some (o + l) else none) := rfl

/-- C2: the reconciler processes exactly the bounds-checked sub-sequence
of the missing set from index `offset` to `offset + limit`; `hasMore` is
true iff `offset + limit` is strictly below the missing set's size; and
`nextOffset` is `offset + limit` when `hasMore` holds and absent
otherwise. -/
theorem sync_batch_selection (store0 : List SubmissionRecord) (upstream : List Submission)
    (offset limit : Nat) (relay : String → Except String String) :
    ((reconcile (some store0) (some store0) upstream offset limit relay).hasMore = true ↔
      offset + limit < (missingOf store0 upstream).length)
  ∧ ((reconcile (some store0) (some store0) upstream offset limit relay).hasMore = true →
      (reconcile (some store0) (some store0) upstream offset limit relay).nextOffset =
        some (offset + limit))
  ∧ ((reconcile (some store0) (some store0) upstream offset limit relay).hasMore = false →
      (reconcile (some store0) (some store0) upstream offset limit relay).nextOffset = none)
  ∧ ((batchSel (missingOf store0 upstream) offset limit).length =
      min limit ((missingOf store0 upstream).length - offset))
  ∧ (∀ i, i < limit →
      (batchSel (missingOf store0 upstream) offset limit)[i]? =
        (missingOf store0 upstream)[offset + i]?)
  ∧ ((reconcile (some store0) (some store0) upstream offset limit relay).processed =
      (batchSel (missingOf store0 upstream) offset limit).countP (itemSuccess relay)) := by
  refine ⟨?_, ?_, ?_, ?_, ?_, ?_⟩
  · rw [reconcile_hasMore]
    simp [missingOf]
  · intro h
    rw [reconcile_nextOffset, h]
    rfl
  · intro h
    rw [reconcile_nextOffset, h]
    rfl
  · simp [batchSel, List.length_take, List.length_drop]
  · intro i hi
    simp [batchSel, List.getElem?_take, hi, List.getElem?_drop]
  · rw [reconcile_processed, processBatch_processed]
    rfl

/-- Witness for C2 at a concrete input: two missing submissions, batch
window of one starting at zero. -/
theorem sync_batch_selection_witness :
    (reconcile (some []) (some []) [subA, subB] 0 1 relayOk).nextOffset = some (0 + 1)
  ∧ (batchSel (missingOf [] [subA, subB]) 0 1)[0]? = (missingOf [] [subA, subB])[0 + 0]? :=
  ⟨(sync_batch_selection [] [subA, subB] 0 1 relayOk).2.1 (by decide),
    (sync_batch_selection [] [subA, subB] 0 1 relayOk).2.2.2.2.1 0 (by decide)⟩

theorem batchSel_sublist (m : List Submission) (o l : Nat) : (batchSel m o l).Sublist m :=
  (List.take_sublist _ _).trans (List.drop_sublist _ _)

theorem mem_missingFromBin (up : List Submission) (ids : List String) (sub : Submission) :
    sub ∈ missingFromBin up ids ↔
      sub ∈ up ∧ isActiveCheck sub = true ∧ ids.contains sub.id = false := by
  simp [missingFromBin, List.mem_filter, Bool.and_eq_true, Bool.not_eq_true', and_assoc]

theorem newEntries_keep (upstream : List Submission) (ids : List String) (o l : Nat)
    (relay : String → Except String String) (r : SubmissionRecord)
    (hr : r ∈ (processBatch relay (batchSel (missingFromBin upstream ids) o l)).newEntries) :
    keepEntry (activeIds upstream) r = true := by
  rcases (processBatch_mem_newEntries relay _ r).mp hr with ⟨sub, hsub, url, _, hrec⟩
  have hmem : sub ∈ missingFromBin upstream ids :=
    (batchSel_sublist _ o l).subset hsub
  rcases (mem_missingFromBin upstream ids sub).mp hmem with ⟨hup, hact, _⟩
  rw [hrec]
  show keepEntry (activeIds upstream) (mkRecord sub url (subName sub)) = true
  unfold keepEntry mkRecord
  cases he : sub.id.isEmpty with
  | true => simp [optStrTruthy, he]
  | false =>
    simp only [optStrTruthy, he, Bool.not_false, if_true, Option.getD_some]
    rw [contains_eq_true_iff]
    rw [activeIds, List.mem_map]
    exact ⟨sub, List.mem_filter.mpr ⟨hup, by rw [← isActiveCheck_eq]; exact hact⟩, rfl⟩

theorem getBin_no_init (readRes : Option (List SubmissionRecord)) (r : SubmissionRecord)
    (hr : r ∈ getBin readRes) : r.init = false := by
  cases readRes with
  | none => cases hr
  | some data =>
    have := List.mem_filter.mp hr
    simpa using this.2

/-- C1: a stored record is retained by the reconciler iff it has no
(truthy) `submissionId` or its `submissionId` belongs to an upstream
submission whose status, compared case-insensitively, equals `ACTIVE`;
every stored record whose identifier is absent from that active set is
dropped, and the `removed` count equals the number of records dropped. -/
theorem sync_prune_retention (store0 : List SubmissionRecord) (upstream : List Submission)
    (offset limit : Nat) (relay : String → Except String String) :
    (∀ r ∈ getBin (some store0),
      (r ∈ getBin (some ((reconcile (some store0) (some store0) upstream offset limit relay).write.getD store0)) ↔
        (optStrTruthy r.submissionId = false ∨
          ∃ sub ∈ upstream, isActiveMap sub = true ∧ some sub.id = r.submissionId)))
  ∧ (reconcile (some store0) (some store0) upstream offset limit relay).removed =
      ((getBin (some store0)).filter (fun r => !keepEntry (activeIds upstream) r)).length := by
  constructor
  · intro r hrE
    rw [reconcile_write]
    by_cases hc :
        (processBatch relay (batchSel (missingFromBin upstream
            (truthyIds ((getBin (some store0)).filter (keepEntry (activeIds upstream))))) offset limit)).newEntries.length > 0
          ∨ 0 < (getBin (some store0)).length - ((getBin (some store0)).filter (keepEntry (activeIds upstream))).length
    · rw [if_pos hc, Option.getD_some]
      have hw : getBin (some
          ((processBatch relay (batchSel (missingFromBin upstream
              (truthyIds ((getBin (some store0)).filter (keepEntry (activeIds upstream))))) offset limit)).newEntries.filter
                (fun e => !((truthyIds ((getBin (some store0)).filter (keepEntry (activeIds upstream)))).contains
                  (e.submissionId.getD "")))
            ++ (getBin (some store0)).filter (keepEntry (activeIds upstream)))) =
          (processBatch relay (batchSel (missingFromBin upstream
              (truthyIds ((getBin (some store0)).filter (keepEntry (activeIds upstream))))) offset limit)).newEntries.filter
                (fun e => !((truthyIds ((getBin (some store0)).filter (keepEntry (activeIds upstream)))).contains
                  (e.submissionId.getD "")))
            ++ (getBin (some store0)).filter (keepEntry (activeIds upstream)) := by
        show List.filter _ _ = _
        rw [List.filter_eq_self]
        intro a ha
        rcases List.mem_append.mp ha with hnew | hold
        · rcases (processBatch_mem_newEntries relay _ a).mp (List.mem_filter.mp hnew).1 with
            ⟨sub, _, url, _, hrec⟩
          rw [hrec]
          rfl
        · have : a ∈ getBin (some store0) := (List.mem_filter.mp hold).1
          have := getBin_no_init (some store0) a this
          simp [this]
      rw [hw]
      rw [← keepEntry_eq_true_iff]
      constructor
      · intro hfin
        rcases List.mem_append.mp hfin with hnew | hold
        · exact newEntries_keep upstream _ offset limit relay r (List.mem_filter.mp hnew).1
        · exact (List.mem_filter.mp hold).2
      · intro hkeep
        exact List.mem_append.mpr (Or.inr (List.mem_filter.mpr ⟨hrE, hkeep⟩))
    · rw [if_neg hc, Option.getD_none]
      push_neg at hc
      have hrem : (getBin (some store0)).length -
          ((getBin (some store0)).filter (keepEntry (activeIds upstream))).length = 0 :=
        Nat.le_zero.mp hc.2
      have hall := List.filter_eq_self.mp
        (filter_eq_self_of_removed_zero (keepEntry (activeIds upstream)) (getBin (some store0)) hrem)
      rw [← keepEntry_eq_true_iff]
      exact ⟨fun _ => hall r hrE, fun _ => hrE⟩
  · rw [reconcile_removed, length_sub_filter_length]

/-- Concrete store fixture: a record whose identifier no longer appears
upstream. -/
def recStale : SubmissionRecord :=
  ⟨some "Old", some "img-z", some "Z", some "t0", some 3, false⟩

/-- Witness for C1 at a concrete input: a store holding one stale record
against an upstream where only `A` is active. -/
theorem sync_prune_retention_witness :
    (recStale ∈ getBin (some ((reconcile (some [recStale]) (some [recStale]) [subA] 0 5 relayOk).write.getD [recStale])) ↔
      (optStrTruthy recStale.submissionId = false ∨
        ∃ sub ∈ [subA], isActiveMap sub = true ∧ some sub.id = recStale.submissionId))
  ∧ (reconcile (some [recStale]) (some [recStale]) [subA] 0 5 relayOk).removed =
      ((getBin (some [recStale])).filter (fun r => !keepEntry (activeIds [subA]) r)).length :=
  ⟨(sync_prune_retention [recStale] [subA] 0 5 relayOk).1 recStale (by decide),
    (sync_prune_retention [recStale] [subA] 0 5 relayOk).2⟩

/-! ### Lemmas about the like mutator -/

theorem map_bumpIfMatch_of_unique (sid : String) (l : List SubmissionRecord) :
    ∀ (i : Nat) (h : i < l.length),
      (l.get ⟨i, h⟩).submissionId = some sid →
      l.countP (fun s => s.submissionId == some sid) ≤ 1 →
      l.map (bumpIfMatch sid) =
        l.set i { l.get ⟨i, h⟩ with likes := some (likesVal (l.get ⟨i, h⟩).likes + 1) } := by
  induction l with
  | nil => intro i h; cases h
  | cons a t ih =>
    intro i h hm hu
    cases i with
    | zero =>
      have hmatch : (a.submissionId == some sid) = true := beq_iff_eq.mpr hm
      have hcnt : t.countP (fun s => s.submissionId == some sid) = 0 := by
        have := hu
        rw [List.countP_cons, if_pos hmatch] at this
        omega
      have htail : t.map (bumpIfMatch sid) = t := by
        have hnone := List.countP_eq_zero.mp hcnt
        have : ∀ s ∈ t, bumpIfMatch sid s = s := by
          intro s hs
          unfold bumpIfMatch
          rw [if_neg]
          intro hbeq
          exact hnone s hs hbeq
        calc t.map (bumpIfMatch sid) = t.map id := List.map_congr_left this
          _ = t := List.map_id t
      show bumpIfMatch sid a :: t.map (bumpIfMatch sid) = _
      rw [htail]
      unfold bumpIfMatch
      rw [if_pos hmatch]
      rfl
    | succ n =>
      have hn : n < t.length := Nat.lt_of_succ_lt_succ h
      have hmt : (t.get ⟨n, hn⟩).submissionId = some sid := hm
      have hamatch : (a.submissionId == some sid) = false := by
        cases hb : a.submissionId == some sid with
        | false => rfl
        | true =>
          exfalso
          have h1 : 0 < t.countP (fun s => s.submissionId == some sid) :=
            List.countP_pos_iff.mpr ⟨t.get ⟨n, hn⟩, List.get_mem t n hn, beq_iff_eq.mpr hmt⟩
          rw [List.countP_cons, if_pos hb] at hu
          omega
      have hut : t.countP (fun s => s.submissionId == some sid) ≤ 1 := by
        rw [List.countP_cons, if_neg (by rw [hamatch]; intro hx; cases hx)] at hu
        omega
      show bumpIfMatch sid a :: t.map (bumpIfMatch sid) = _
      rw [ih n hn hmt hut]
      unfold bumpIfMatch
      rw [if_neg (by rw [hamatch]; intro hx; cases hx)]
      rfl

theorem filter_single_of_unique (sid : String) (l : List SubmissionRecord) :
    ∀ (i : Nat) (h : i < l.length),
      (l.get ⟨i, h⟩).submissionId = some sid →
      l.countP (fun s => s.submissionId == some sid) ≤ 1 →
      l.filter (fun s => s.submissionId == some sid) = [l.get ⟨i, h⟩] := by
  induction l with
  | nil => intro i h; cases h
  | cons a t ih =>
    intro i h hm hu
    cases i with
    | zero =>
      have hmatch : (a.submissionId == some sid) = true := beq_iff_eq.mpr hm
      have hcnt : t.countP (fun s => s.submissionId == some sid) = 0 := by
        rw [List.countP_cons, if_pos hmatch] at hu
        omega
      have htail : t.filter (fun s => s.submissionId == some sid) = [] := by
        rw [List.filter_eq_nil_iff]
        exact List.countP_eq_zero.mp hcnt
      simp only [List.filter_cons, hmatch, if_true, htail]
      rfl
    | succ n =>
      have hn : n < t.length := Nat.lt_of_succ_lt_succ h
      have hmt : (t.get ⟨n, hn⟩).submissionId = some sid := hm
      have hamatch : (a.submissionId == some sid) = false := by
        cases hb : a.submissionId == some sid with
        | false => rfl
        | true =>
          exfalso
          have h1 : 0 < t.countP (fun s => s.submissionId == some sid) :=
            List.countP_pos_iff.mpr ⟨t.get ⟨n, hn⟩, List.get_mem t n hn, beq_iff_eq.mpr hmt⟩
          rw [List.countP_cons, if_pos hb] at hu
          omega
      have hut : t.countP (fun s => s.submissionId == some sid) ≤ 1 := by
        rw [List.countP_cons, if_neg (by rw [hamatch]; intro hx; cases hx)] at hu
        omega
      simp only [List.filter_cons, hamatch, Bool.false_eq_true, if_false]
      exact ih n hn hmt hut

/-- C6: the Like operation answers `400` when the request identifier is
falsy; `404` (writing nothing) when no stored record's `submissionId`
equals the requested identifier; and otherwise — the store holding at
most one matching record — it increments that unique record's `likes` by
exactly one, leaves every other record unchanged, writes the whole store
back and returns the incremented count. -/
theorem like_contract (store : List SubmissionRecord) (reqId : Option String)
    (hu : store.countP (fun s => s.submissionId == reqId) ≤ 1) :
    (optStrTruthy reqId = false → like (some store) true reqId = ⟨400, none, none⟩)
  ∧ (optStrTruthy reqId = true → (∀ s ∈ store, s.submissionId ≠ reqId) →
      like (some store) true reqId = ⟨404, none, none⟩)
  ∧ (optStrTruthy reqId = true → ∀ (i : Nat) (hi : i < store.length),
      (store.get ⟨i, hi⟩).submissionId = reqId →
      (like (some store) true reqId).statusCode = 200
    ∧ (like (some store) true reqId).likes = some (likesVal (store.get ⟨i, hi⟩).likes + 1)
    ∧ (like (some store) true reqId).written =
        some (store.set i
          { store.get ⟨i, hi⟩ with likes := some (likesVal (store.get ⟨i, hi⟩).likes + 1) })) := by
  refine ⟨?_, ?_, ?_⟩
  · intro h
    simp [like, h]
  · intro ht hno
    cases hq : reqId with
    | none => rw [hq] at ht; simp [optStrTruthy] at ht
    | some sid =>
      rw [hq] at ht hno
      have hfound : store.any (fun s => s.submissionId == some sid) = false := by
        rw [List.any_eq_false]
        intro x hx hbeq
        exact hno x hx (beq_iff_eq.mp hbeq)
      simp [like, hq, ht, hfound]
  · intro ht i hi hm
    cases hq : reqId with
    | none => rw [hq] at ht; simp [optStrTruthy] at ht
    | some sid =>
      rw [hq] at ht hm hu
      have hfound : store.any (fun s => s.submissionId == some sid) = true :=
        List.any_eq_true.mpr ⟨store.get ⟨i, hi⟩, List.get_mem store i hi, beq_iff_eq.mpr hm⟩
      have hfilter := filter_single_of_unique sid store i hi hm hu
      have hmap := map_bumpIfMatch_of_unique sid store i hi hm hu
      refine ⟨?_, ?_, ?_⟩
      · simp [like, hq, ht, hfound]
      · simp [like, hq, ht, hfound, hfilter]
      · simp [like, hq, ht, hfound, hmap]

/-- Concrete store fixture matching the spec scenario: record `A` with
three likes. -/
def recA3 : SubmissionRecord :=
  ⟨some "Mario", some "img-a", some "A", some "t1", some 3, false⟩

/-- Witness for C6 at the spec's scenario: liking `A` on a store holding
`A` with three likes answers `200` with four likes and writes the
updated store. -/
theorem like_contract_witness :
    (like (some [recA3]) true (some "A")).statusCode = 200
  ∧ (like (some [recA3]) true (some "A")).likes = some (likesVal recA3.likes + 1)
  ∧ (like (some [recA3]) true (some "A")).written =
      some ([recA3].set 0 { recA3 with likes := some (likesVal recA3.likes + 1) }) := by
  have h := (like_contract [recA3] (some "A") (by decide)).2.2 rfl 0 (by decide) rfl
  exact ⟨h.1, h.2.1, h.2.2⟩

/-- C10: when several stored records share the requested `submissionId`,
a single Like call increments the `likes` of every matching record by
one (records that do not match are unchanged) and returns the
post-increment `likes` of the last matching record in array order. -/
theorem like_duplicate_semantics (store : List SubmissionRecord) (sid : String)
    (hsid : sid.isEmpty = false) (hfound : ∃ s ∈ store, s.submissionId = some sid) :
    (like (some store) true (some sid)).statusCode = 200
  ∧ (∃ w, (like (some store) true (some sid)).written = some w
      ∧ w.length = store.length
      ∧ ∀ (i : Nat) (hi : i < store.length),
          ((store.get ⟨i, hi⟩).submissionId = some sid →
            w[i]? = some { store.get ⟨i, hi⟩ with
              likes := some (likesVal (store.get ⟨i, hi⟩).likes + 1) })
        ∧ ((store.get ⟨i, hi⟩).submissionId ≠ some sid →
            w[i]? = some (store.get ⟨i, hi⟩)))
  ∧ (∃ last, (store.filter (fun s => s.submissionId == some sid)).getLast? = some last
      ∧ (like (some store) true (some sid)).likes = some (likesVal last.likes + 1)) := by
  have ht : optStrTruthy (some sid) = true := by simp [optStrTruthy, hsid]
  rcases hfound with ⟨s0, hs0, hms0⟩
  have hfoundb : store.any (fun s => s.submissionId == some sid) = true :=
    List.any_eq_true.mpr ⟨s0, hs0, beq_iff_eq.mpr hms0⟩
  have hne : store.filter (fun s => s.submissionId == some sid) ≠ [] :=
    List.ne_nil_of_mem (List.mem_filter.mpr ⟨hs0, beq_iff_eq.mpr hms0⟩)
  rcases Option.isSome_iff_exists.mp (List.getLast?_isSome.mpr hne) with ⟨last, hlast⟩
  refine ⟨?_, ⟨store.map (bumpIfMatch sid), ?_, ?_, ?_⟩, ⟨last, hlast, ?_⟩⟩
  · simp [like, ht, hfoundb]
  · simp [like, ht, hfoundb]
  · exact List.length_map store (bumpIfMatch sid)
  · intro i hi
    constructor
    · intro hm
      simp only [List.get_eq_getElem] at hm ⊢
      rw [List.getElem?_map, List.getElem?_eq_getElem hi]
      show some (bumpIfMatch sid store[i]) = _
      unfold bumpIfMatch
      rw [if_pos (beq_iff_eq.mpr hm)]
    · intro hm
      simp only [List.get_eq_getElem] at hm ⊢
      rw [List.getElem?_map, List.getElem?_eq_getElem hi]
      show some (bumpIfMatch sid store[i]) = _
      unfold bumpIfMatch
      rw [if_neg (fun hbeq => hm (beq_iff_eq.mp hbeq))]
  · simp [like, ht, hfoundb, hlast]

/-- Concrete store fixture: two records both carrying identifier `A`,
with three and seven likes. -/
def dupStore : List SubmissionRecord :=
  [⟨some "Mario", some "img-1", some "A", some "t1", some 3, false⟩,
   ⟨some "Wario", some "img-2", some "A", some "t2", some 7, false⟩]

/-- Witness for C10 at a concrete input: both duplicates of `A` are
bumped and the response carries the last one's new count. -/
theorem like_duplicate_semantics_witness :
    (like (some dupStore) true (some "A")).statusCode = 200
  ∧ (∃ last, (dupStore.filter (fun s => s.submissionId == some "A")).getLast? = some last
      ∧ (like (some dupStore) true (some "A")).likes = some (likesVal last.likes + 1)) :=
  ⟨(like_duplicate_semantics dupStore "A" (by decide)
      ⟨⟨some "Mario", some "img-1", some "A", some "t1", some 3, false⟩, by decide, rfl⟩).1,
    (like_duplicate_semantics dupStore "A" (by decide)
      ⟨⟨some "Mario", some "img-1", some "A", some "t1", some 3, false⟩, by decide, rfl⟩).2.2⟩

/-- C9: a webhook insert whose (normalised) payload identifier already
matches a stored record's `submissionId` reports a skipped duplicate and
performs no store write; otherwise the new record is prepended to the
fetched store and written back. -/
theorem webhook_insert_contract (readRes : Option (List SubmissionRecord)) (nm : Option String)
    (url : String) (sidRaw : Option String) (ts : String) :
    ((∃ s, normId sidRaw = some s ∧ ∃ r ∈ getBin readRes, r.submissionId = some s) →
      (webhookInsert readRes nm url sidRaw ts).skipped = true
    ∧ (webhookInsert readRes nm url sidRaw ts).write = none)
  ∧ ((∀ s, normId sidRaw = some s → ∀ r ∈ getBin readRes, r.submissionId ≠ some s) →
      (webhookInsert readRes nm url sidRaw ts).skipped = false
    ∧ (webhookInsert readRes nm url sidRaw ts).write =
        some (⟨nm, some url, normId sidRaw, some ts, none, false⟩ :: getBin readRes)) := by
  constructor
  · rintro ⟨s, hs, r, hr, hmr⟩
    have hcond : ((normId sidRaw).isSome &&
        (getBin readRes).any (fun x => x.submissionId == normId sidRaw)) = true := by
      rw [hs]
      simp only [Option.isSome_some, Bool.true_and, List.any_eq_true]
      exact ⟨r, hr, beq_iff_eq.mpr hmr⟩
    constructor
    · simp [webhookInsert, hcond]
    · simp [webhookInsert, hcond]
  · intro hno
    have hcond : ((normId sidRaw).isSome &&
        (getBin readRes).any (fun x => x.submissionId == normId sidRaw)) = false := by
      cases hn : normId sidRaw with
      | none => simp
      | some s =>
        simp only [Option.isSome_some, Bool.true_and, List.any_eq_false]
        intro x hx hbeq
        exact hno s hn x hx (beq_iff_eq.mp hbeq)
    constructor
    · simp [webhookInsert, hcond]
    · simp [webhookInsert, hcond]

/-- Witness for C9 at a concrete input: inserting identifier `A` against
a store already holding `A` is skipped without a write. -/
theorem webhook_insert_contract_witness :
    (webhookInsert (some [recA3]) (some "Peach") "img-p" (some "A") "t9").skipped = true
  ∧ (webhookInsert (some [recA3]) (some "Peach") "img-p" (some "A") "t9").write = none :=
  (webhook_insert_contract (some [recA3]) (some "Peach") "img-p" (some "A") "t9").1
    ⟨"A", rfl, recA3, by decide, rfl⟩

/-- Concrete init-sentinel fixture. -/
def recInit : SubmissionRecord := ⟨none, none, none, none, none, true⟩

/-- Witness for C8 at concrete inputs: a failed read yields `[]` and a
real record survives the `init` filter. -/
theorem fetchAll_contract_witness :
    getBin none = ([] : List SubmissionRecord) ∧ recA3 ∈ getBin (some [recA3, recInit]) :=
  ⟨fetchAll_contract.1, (fetchAll_contract.2.2 [recA3, recInit] recA3).mpr ⟨by decide, rfl⟩⟩

/-! ### Pagination over a fixed snapshot, and the stateful counterexample -/

theorem flatten_batchSel (limit : Nat) : ∀ (n : Nat) (l : List Submission),
    l.length ≤ n * limit →
    ((List.range n).map (fun k => batchSel l (k * limit) limit)).flatten = l := by
  intro n
  induction n with
  | zero =>
    intro l hl
    have : l = [] := List.length_eq_zero.mp (Nat.le_zero.mp (by simpa using hl))
    simp [this]
  | succ m ih =>
    intro l hl
    rw [List.range_succ_eq_map, List.map_cons, List.map_map, List.flatten_cons]
    have h0 : batchSel l (0 * limit) limit = l.take limit := by
      simp [batchSel]
    have hshift : ((List.range m).map ((fun k => batchSel l (k * limit) limit) ∘ (· + 1))) =
        (List.range m).map (fun k => batchSel (l.drop limit) (k * limit) limit) := by
      apply List.map_congr_left
      intro k _
      show batchSel l ((k + 1) * limit) limit = batchSel (l.drop limit) (k * limit) limit
      unfold batchSel
      rw [List.drop_drop]
      congr 1
      rw [Nat.add_mul, Nat.one_mul, Nat.add_comm]
    rw [h0, hshift, ih (l.drop limit) (by
      rw [List.length_drop]
      have h' : (m + 1) * limit = m * limit + limit := by
        rw [Nat.add_mul, Nat.one_mul]
      rw [h'] at hl
      exact Nat.sub_le_iff_le_add.mpr hl)]
    exact List.take_append_drop limit l

/-- C3 counterexample (stateful run): with two missing submissions and
`limit = 1`, the first call reports `totalMissing = 2` and
`nextOffset = 1`; after its write, the follow-up call at offset `1`
reports `totalMissing = 1` (different from the first call), processes
nothing, ends the loop, and submission `B` was never materialised. -/
theorem sync_pagination_counterexample :
    (reconcile (some []) (some []) [subA, subB] 0 1 relayOk).totalMissing = 2
  ∧ (reconcile (some []) (some []) [subA, subB] 0 1 relayOk).hasMore = true
  ∧ (reconcile (some []) (some []) [subA, subB] 0 1 relayOk).nextOffset = some 1
  ∧ (reconcile (some (applySync [] [subA, subB] 0 1 relayOk))
      (some (applySync [] [subA, subB] 0 1 relayOk)) [subA, subB] 1 1 relayOk).totalMissing = 1
  ∧ (reconcile (some (applySync [] [subA, subB] 0 1 relayOk))
      (some (applySync [] [subA, subB] 0 1 relayOk)) [subA, subB] 1 1 relayOk).totalMissing ≠
      (reconcile (some []) (some []) [subA, subB] 0 1 relayOk).totalMissing
  ∧ (reconcile (some (applySync [] [subA, subB] 0 1 relayOk))
      (some (applySync [] [subA, subB] 0 1 relayOk)) [subA, subB] 1 1 relayOk).hasMore = false
  ∧ (reconcile (some (applySync [] [subA, subB] 0 1 relayOk))
      (some (applySync [] [subA, subB] 0 1 relayOk)) [subA, subB] 1 1 relayOk).processed = 0
  ∧ (applySync (applySync [] [subA, subB] 0 1 relayOk) [subA, subB] 1 1 relayOk).countP
      (fun r => r.submissionId == some "B") = 0 := by
  decide

/-- C3 amended: over a fixed store snapshot (no store writes between
calls) and a fixed upstream, the calls at offsets `0, limit, 2·limit, …`
select batches that concatenate to exactly the missing set (each missing
submission in exactly one batch), every call reports the same
`totalMissing`, and call `k` has `hasMore` iff `(k+1)·limit` is below
the missing set's size — so the loop ends exactly when the batches have
covered the whole missing set. -/
theorem sync_pagination_fixed_snapshot (store0 : List SubmissionRecord)
    (upstream : List Submission) (relay : String → Except String String) (limit n : Nat)
    (hn : (missingOf store0 upstream).length ≤ n * limit) :
    (((List.range n).map (fun k => batchSel (missingOf store0 upstream) (k * limit) limit)).flatten =
      missingOf store0 upstream)
  ∧ (∀ k, (reconcile (some store0) (some store0) upstream (k * limit) limit relay).totalMissing =
      (missingOf store0 upstream).length)
  ∧ (∀ k, (reconcile (some store0) (some store0) upstream (k * limit) limit relay).hasMore = true ↔
      (k + 1) * limit < (missingOf store0 upstream).length) := by
  refine ⟨flatten_batchSel limit n (missingOf store0 upstream) hn, ?_, ?_⟩
  · intro k
    rw [reconcile_totalMissing]
    rfl
  · intro k
    rw [reconcile_hasMore]
    simp only [decide_eq_true_eq, Nat.succ_mul]
    show k * limit + limit < (missingOf store0 upstream).length ↔ _
    rfl

/-- Witness for the amended C3 at a concrete input: two missing
submissions covered by two calls with `limit = 1`. -/
theorem sync_pagination_fixed_snapshot_witness :
    (((List.range 2).map (fun k => batchSel (missingOf [] [subA, subB]) (k * 1) 1)).flatten =
      missingOf [] [subA, subB])
  ∧ (reconcile (some []) (some []) [subA, subB] (1 * 1) 1 relayOk).totalMissing =
      (missingOf [] [subA, subB]).length :=
  ⟨(sync_pagination_fixed_snapshot [] [subA, subB] relayOk 1 2 (by decide)).1,
    (sync_pagination_fixed_snapshot [] [subA, subB] relayOk 1 2 (by decide)).2.1 1⟩

/-! ### Lemmas for idempotence and the duplication invariant -/

theorem truthyIds_append (a b : List SubmissionRecord) :
    truthyIds (a ++ b) = truthyIds a ++ truthyIds b := by
  simp [truthyIds, List.filterMap_append, List.filter_append]

theorem contains_eq_false_iff (l : List String) (a : String) :
    l.contains a = false ↔ a ∉ l := by
  rw [← contains_eq_true_iff l a]
  cases l.contains a <;> simp

theorem newEntries_init_false (relay : String → Except String String) (b : List Submission)
    (r : SubmissionRecord) (h : r ∈ (processBatch relay b).newEntries) : r.init = false := by
  rcases (processBatch_mem_newEntries relay b r).mp h with ⟨sub, _, url, _, hrec⟩
  rw [hrec]
  rfl

theorem getBin_some_of_no_init (w : List SubmissionRecord) (h : ∀ r ∈ w, r.init = false) :
    getBin (some w) = w := by
  show w.filter _ = w
  rw [List.filter_eq_self]
  intro a ha
  rw [h a ha]
  rfl

theorem mem_truthyIds (l : List SubmissionRecord) (s : String) :
    s ∈ truthyIds l ↔ (∃ r ∈ l, r.submissionId = some s) ∧ s.isEmpty = false := by
  simp [truthyIds, List.mem_filter, List.mem_filterMap, Bool.not_eq_true', and_comm]

theorem filter_keep_mem (aIds : List String) (l : List SubmissionRecord) (r : SubmissionRecord)
    (h : r ∈ l.filter (keepEntry aIds)) : keepEntry aIds r = true :=
  (List.mem_filter.mp h).2

theorem reconcile_quiet_of (st1 : List SubmissionRecord) (upstream : List Submission)
    (relay : String → Except String String) (limit : Nat)
    (hkeep : ∀ r ∈ getBin (some st1), keepEntry (activeIds upstream) r = true)
    (hlen : (missingFromBin upstream (truthyIds (getBin (some st1)))).length ≤ limit)
    (hnosucc : ∀ sub ∈ missingFromBin upstream (truthyIds (getBin (some st1))),
      ¬ itemSuccess relay sub = true) :
    (reconcile (some st1) (some st1) upstream 0 limit relay).processed = 0
  ∧ (reconcile (some st1) (some st1) upstream 0 limit relay).write = none := by
  have hP2 : (getBin (some st1)).filter (keepEntry (activeIds upstream)) = getBin (some st1) :=
    List.filter_eq_self.mpr hkeep
  have hbatch2 : batchSel (missingFromBin upstream (truthyIds (getBin (some st1)))) 0 limit =
      missingFromBin upstream (truthyIds (getBin (some st1))) := by
    unfold batchSel
    rw [List.drop_zero]
    exact List.take_of_length_le hlen
  have hplen : (processBatch relay
      (missingFromBin upstream (truthyIds (getBin (some st1))))).newEntries.length = 0 := by
    rw [processBatch_newEntries_length, processBatch_processed]
    exact List.countP_eq_zero.mpr hnosucc
  constructor
  · rw [reconcile_processed, hP2, hbatch2, processBatch_processed]
    exact List.countP_eq_zero.mpr hnosucc
  · rw [reconcile_write, hP2, hbatch2]
    rw [if_neg]
    intro hcon
    rcases hcon with h | h
    · rw [hplen] at h
      exact Nat.lt_irrefl 0 h
    · rw [Nat.sub_self] at h
      exact Nat.lt_irrefl 0 h

theorem after_write_quiet (upstream : List Submission) (relay : String → Except String String)
    (limit : Nat) (E w : List SubmissionRecord)
    (hw : w = (processBatch relay (batchSel (missingFromBin upstream
        (truthyIds (E.filter (keepEntry (activeIds upstream))))) 0 limit)).newEntries.filter
          (fun e => !((truthyIds (E.filter (keepEntry (activeIds upstream)))).contains
            (e.submissionId.getD "")))
      ++ E.filter (keepEntry (activeIds upstream)))
    (hids : ∀ sub ∈ upstream, sub.id.isEmpty = false)
    (hEinit : ∀ r ∈ E, r.init = false)
    (hfit : (missingFromBin upstream
      (truthyIds (E.filter (keepEntry (activeIds upstream))))).length ≤ limit) :
    (∀ r ∈ w, r.init = false)
  ∧ (∀ r ∈ w, keepEntry (activeIds upstream) r = true)
  ∧ (missingFromBin upstream (truthyIds w)).length ≤ limit
  ∧ ∀ sub ∈ missingFromBin upstream (truthyIds w), ¬ itemSuccess relay sub = true := by
  have hbatch1 : batchSel (missingFromBin upstream
      (truthyIds (E.filter (keepEntry (activeIds upstream))))) 0 limit =
      missingFromBin upstream (truthyIds (E.filter (keepEntry (activeIds upstream)))) := by
    unfold batchSel
    rw [List.drop_zero]
    exact List.take_of_length_le hfit
  have hinit : ∀ r ∈ w, r.init = false := by
    intro r hr
    rw [hw] at hr
    rcases List.mem_append.mp hr with h | h
    · exact newEntries_init_false relay _ r (List.mem_filter.mp h).1
    · exact hEinit r (List.mem_filter.mp h).1
  have hkeep : ∀ r ∈ w, keepEntry (activeIds upstream) r = true := by
    intro r hr
    rw [hw] at hr
    rcases List.mem_append.mp hr with h | h
    · exact newEntries_keep upstream _ 0 limit relay r (List.mem_filter.mp h).1
    · exact (List.mem_filter.mp h).2
  have hsub21 : (missingFromBin upstream (truthyIds w)).Sublist
      (missingFromBin upstream (truthyIds (E.filter (keepEntry (activeIds upstream))))) := by
    unfold missingFromBin
    apply List.monotone_filter_right
    intro sub hcond
    rw [Bool.and_eq_true] at hcond
    rcases hcond with ⟨hact, hnc⟩
    rw [Bool.and_eq_true]
    refine ⟨hact, ?_⟩
    rw [Bool.not_eq_true'] at hnc
    rw [Bool.not_eq_true']
    rw [contains_eq_false_iff] at hnc
    rw [contains_eq_false_iff]
    intro hmem
    apply hnc
    rw [hw, truthyIds_append]
    exact List.mem_append.mpr (Or.inr hmem)
  refine ⟨hinit, hkeep, le_trans hsub21.length_le hfit, ?_⟩
  intro sub hsub hs
  rcases (mem_missingFromBin upstream _ sub).mp hsub with ⟨hup, hact, hcont2⟩
  have hnm2 : sub.id ∉ truthyIds w := (contains_eq_false_iff _ _).mp hcont2
  rw [hw, truthyIds_append] at hnm2
  have hnfNew : sub.id ∉ truthyIds ((processBatch relay (batchSel (missingFromBin upstream
      (truthyIds (E.filter (keepEntry (activeIds upstream))))) 0 limit)).newEntries.filter
        (fun e => !((truthyIds (E.filter (keepEntry (activeIds upstream)))).contains
          (e.submissionId.getD "")))) :=
    fun hx => hnm2 (List.mem_append.mpr (Or.inl hx))
  have hnids1 : sub.id ∉ truthyIds (E.filter (keepEntry (activeIds upstream))) :=
    fun hx => hnm2 (List.mem_append.mpr (Or.inr hx))
  have hsubm1 : sub ∈ missingFromBin upstream
      (truthyIds (E.filter (keepEntry (activeIds upstream)))) :=
    (mem_missingFromBin upstream _ sub).mpr
      ⟨hup, hact, (contains_eq_false_iff _ _).mpr hnids1⟩
  unfold itemSuccess at hs
  cases ho : itemOutcome relay sub with
  | none => rw [ho] at hs; simp at hs
  | some v =>
    cases v with
    | error m => rw [ho] at hs; simp at hs
    | ok url =>
      have hmemNE : mkRecord sub url (subName sub) ∈ (processBatch relay
          (batchSel (missingFromBin upstream
            (truthyIds (E.filter (keepEntry (activeIds upstream))))) 0 limit)).newEntries :=
        (processBatch_mem_newEntries relay _ _).mpr
          ⟨sub, by rw [hbatch1]; exact hsubm1, url, ho, rfl⟩
      apply hnfNew
      rw [mem_truthyIds]
      refine ⟨⟨mkRecord sub url (subName sub), ?_, rfl⟩, hids sub hup⟩
      refine List.mem_filter.mpr ⟨hmemNE, ?_⟩
      show (!((truthyIds (E.filter (keepEntry (activeIds upstream)))).contains
        ((mkRecord sub url (subName sub)).submissionId.getD ""))) = true
      have hgd : (mkRecord sub url (subName sub)).submissionId.getD "" = sub.id := rfl
      rw [hgd, Bool.not_eq_true', contains_eq_false_iff]
      exact hnids1

/-- C4 amended: provided every upstream submission carries a nonempty
identifier and the first call's missing set fits in its batch window
(offset `0`, `totalMissing ≤ limit`), invoking reconciliation twice in
succession with no upstream changes yields `processedCount = 0` on the
second call and the second call performs no write, leaving the store
document — hence its set of `submissionId` values — unchanged. -/
theorem sync_idempotence_single_batch (store0 : List SubmissionRecord)
    (upstream : List Submission) (relay : String → Except String String) (limit : Nat)
    (hids : ∀ sub ∈ upstream, sub.id.isEmpty = false)
    (hfit : (missingOf store0 upstream).length ≤ limit) :
    (reconcile (some (applySync store0 upstream 0 limit relay))
      (some (applySync store0 upstream 0 limit relay)) upstream 0 limit relay).processed = 0
  ∧ (reconcile (some (applySync store0 upstream 0 limit relay))
      (some (applySync store0 upstream 0 limit relay)) upstream 0 limit relay).write = none := by
  have hfitE : (missingFromBin upstream
      (truthyIds ((getBin (some store0)).filter (keepEntry (activeIds upstream))))).length ≤ limit := hfit
  by_cases hc :
      (processBatch relay (batchSel (missingFromBin upstream
        (truthyIds ((getBin (some store0)).filter (keepEntry (activeIds upstream))))) 0 limit)).newEntries.length > 0
      ∨ 0 < (getBin (some store0)).length -
        ((getBin (some store0)).filter (keepEntry (activeIds upstream))).length
  · have hst : applySync store0 upstream 0 limit relay =
        (processBatch relay (batchSel (missingFromBin upstream
          (truthyIds ((getBin (some store0)).filter (keepEntry (activeIds upstream))))) 0 limit)).newEntries.filter
            (fun e => !((truthyIds ((getBin (some store0)).filter (keepEntry (activeIds upstream)))).contains
              (e.submissionId.getD "")))
        ++ (getBin (some store0)).filter (keepEntry (activeIds upstream)) := by
      unfold applySync
      rw [reconcile_write, if_pos hc]
      rfl
    obtain ⟨hinit, hkeep, hlen, hnosucc⟩ := after_write_quiet upstream relay limit
      (getBin (some store0)) (applySync store0 upstream 0 limit relay) hst hids
      (getBin_no_init (some store0)) hfitE
    have hbin : getBin (some (applySync store0 upstream 0 limit relay)) =
        applySync store0 upstream 0 limit relay := getBin_some_of_no_init _ hinit
    apply reconcile_quiet_of
    · intro r hr
      rw [hbin] at hr
      exact hkeep r hr
    · rw [hbin]
      exact hlen
    · intro sub hsub
      rw [hbin] at hsub
      exact hnosucc sub hsub
  · push_neg at hc
    have hne : (processBatch relay (batchSel (missingFromBin upstream
        (truthyIds ((getBin (some store0)).filter (keepEntry (activeIds upstream))))) 0 limit)).newEntries.length = 0 :=
      Nat.le_zero.mp hc.1
    have hrem : (getBin (some store0)).length -
        ((getBin (some store0)).filter (keepEntry (activeIds upstream))).length = 0 :=
      Nat.le_zero.mp hc.2
    have hself : (getBin (some store0)).filter (keepEntry (activeIds upstream)) =
        getBin (some store0) :=
      filter_eq_self_of_removed_zero _ _ hrem
    have hst : applySync store0 upstream 0 limit relay = store0 := by
      unfold applySync
      rw [reconcile_write, if_neg]
      · rfl
      · intro hcon
        rcases hcon with h | h
        · rw [hne] at h
          exact Nat.lt_irrefl 0 h
        · rw [hrem] at h
          exact Nat.lt_irrefl 0 h
    rw [hst]
    have hb1 : batchSel (missingFromBin upstream
        (truthyIds ((getBin (some store0)).filter (keepEntry (activeIds upstream))))) 0 limit =
        missingFromBin upstream
          (truthyIds ((getBin (some store0)).filter (keepEntry (activeIds upstream)))) := by
      unfold batchSel
      rw [List.drop_zero]
      exact List.take_of_length_le hfitE
    apply reconcile_quiet_of
    · intro r hr
      exact List.filter_eq_self.mp hself r hr
    · have h := hfitE
      rw [hself] at h
      exact h
    · intro sub hsub hs
      have hm : sub ∈ missingFromBin upstream
          (truthyIds ((getBin (some store0)).filter (keepEntry (activeIds upstream)))) := by
        rw [hself]
        exact hsub
      rw [hb1] at hne
      have hcount : (missingFromBin upstream
          (truthyIds ((getBin (some store0)).filter (keepEntry (activeIds upstream))))).countP
            (itemSuccess relay) = 0 := by
        rw [← processBatch_processed, ← processBatch_newEntries_length]
        exact hne
      exact List.countP_eq_zero.mp hcount sub hm hs

/-- C4 counterexample (as stated, for every store and upstream): with
two active upstream submissions, `limit = 1` and offset `0`, the second
of two back-to-back reconciliation calls processes one further
submission (not zero) and changes the store's identifier set. -/
theorem sync_idempotence_counterexample :
    (reconcile (some (applySync [] [subA, subB] 0 1 relayOk))
      (some (applySync [] [subA, subB] 0 1 relayOk)) [subA, subB] 0 1 relayOk).processed = 1
  ∧ ¬((reconcile (some (applySync [] [subA, subB] 0 1 relayOk))
      (some (applySync [] [subA, subB] 0 1 relayOk)) [subA, subB] 0 1 relayOk).processed = 0)
  ∧ truthyIds (applySync (applySync [] [subA, subB] 0 1 relayOk) [subA, subB] 0 1 relayOk) ≠
      truthyIds (applySync [] [subA, subB] 0 1 relayOk) := by
  decide

/-- Witness for the amended C4 at a concrete input: one active upstream
submission, batch window of five. -/
theorem sync_idempotence_single_batch_witness :
    (reconcile (some (applySync [] [subA] 0 5 relayOk))
      (some (applySync [] [subA] 0 5 relayOk)) [subA] 0 5 relayOk).processed = 0
  ∧ (reconcile (some (applySync [] [subA] 0 5 relayOk))
      (some (applySync [] [subA] 0 5 relayOk)) [subA] 0 5 relayOk).write = none :=
  sync_idempotence_single_batch [] [subA] relayOk 5 (by decide) (by decide)

theorem truthyIds_sublist {a b : List SubmissionRecord} (h : a.Sublist b) :
    (truthyIds a).Sublist (truthyIds b) :=
  List.Sublist.filter _ (List.Sublist.filterMap _ h)

theorem count_truthyIds (x : String) (hx : x.isEmpty = false) (l : List SubmissionRecord) :
    (truthyIds l).count x = l.countP (fun r => r.submissionId == some x) := by
  induction l with
  | nil => rfl
  | cons a t ih =>
    cases ha : a.submissionId with
    | none =>
      simp only [truthyIds, List.filterMap_cons, ha, List.countP_cons, ha]
      rw [show ((none : Option String) == some x) = false from rfl]
      simpa [truthyIds] using ih
    | some s =>
      cases hs : s.isEmpty with
      | true =>
        have hsx : (s == x) = false := by
          cases hb : s == x with
          | false => rfl
          | true =>
            rw [beq_iff_eq.mp hb, hx] at hs
            cases hs
        have hbeq : ((some s : Option String) == some x) = false := by
          show (s == x) = false
          exact hsx
        simp only [truthyIds, List.filterMap_cons, ha, List.filter_cons, hs, Bool.not_true,
          Bool.false_eq_true, if_false, List.countP_cons, hbeq]
        simpa [truthyIds] using ih
      | false =>
        have hbeq : ((some s : Option String) == some x) = (s == x) := rfl
        simp only [truthyIds, List.filterMap_cons, ha, List.filter_cons, hs, Bool.not_false,
          if_true, List.count_cons, List.countP_cons, hbeq]
        rw [show (truthyIds t).count x = ((t.filterMap (fun e => e.submissionId)).filter
          (fun s => !s.isEmpty)).count x from rfl] at ih
        rw [ih]

theorem nodup_truthyIds_iff (store : List SubmissionRecord) :
    (truthyIds store).Nodup ↔
      ∀ x : String, x.isEmpty = false →
        store.countP (fun r => r.submissionId == some x) ≤ 1 := by
  rw [List.nodup_iff_count_le_one]
  constructor
  · intro h x hx
    rw [← count_truthyIds x hx]
    exact h x
  · intro h x
    cases hx : x.isEmpty with
    | true =>
      have : x ∉ truthyIds store := by
        intro hmem
        rcases (mem_truthyIds store x).mp hmem with ⟨_, hxe⟩
        rw [hx] at hxe
        cases hxe
      rw [List.count_eq_zero.mpr this]
      exact Nat.zero_le 1
    | false =>
      rw [count_truthyIds x hx]
      exact h x hx

theorem truthyIds_newEntries_sublist (relay : String → Except String String)
    (b : List Submission) :
    (truthyIds (processBatch relay b).newEntries).Sublist (b.map (fun sub => sub.id)) := by
  induction b with
  | nil => simp [processBatch, truthyIds]
  | cons sub rest ih =>
    cases h : optStrTruthy (subFile sub) with
    | false =>
      simp only [processBatch, h, Bool.false_eq_true, if_false, List.map_cons]
      exact List.Sublist.cons _ ih
    | true =>
      cases hr : relay ((subFile sub).getD "") with
      | ok url =>
        simp only [processBatch, h, if_true, hr, List.map_cons]
        show (truthyIds (mkRecord sub url (subName sub) ::
          (processBatch relay rest).newEntries)).Sublist (sub.id :: rest.map (fun s => s.id))
        cases hke : sub.id.isEmpty with
        | false =>
          have htr : truthyIds (mkRecord sub url (subName sub) ::
              (processBatch relay rest).newEntries) =
              sub.id :: truthyIds (processBatch relay rest).newEntries := by
            simp [truthyIds, List.filterMap_cons, mkRecord, List.filter_cons, hke]
          rw [htr]
          exact List.Sublist.cons₂ _ ih
        | true =>
          have htr : truthyIds (mkRecord sub url (subName sub) ::
              (processBatch relay rest).newEntries) =
              truthyIds (processBatch relay rest).newEntries := by
            simp [truthyIds, List.filterMap_cons, mkRecord, List.filter_cons, hke]
          rw [htr]
          exact List.Sublist.cons _ ih
      | error m =>
        simp only [processBatch, h, if_true, hr, List.map_cons]
        exact List.Sublist.cons _ ih

theorem normId_some_isEmpty_false (o : Option String) (s : String)
    (h : normId o = some s) : s.isEmpty = false := by
  cases o with
  | none => simp [normId] at h
  | some t =>
    unfold normId at h
    by_cases ht : t.isEmpty = true
    · simp [ht] at h
    · simp [ht] at h
      rw [← h]
      exact Bool.eq_false_iff.mpr ht

theorem step_nodup (store : List SubmissionRecord) (op : StoreOp)
    (hnd : (truthyIds store).Nodup) (hop : opOk op) :
    (truthyIds (applyOp store op)).Nodup := by
  cases op with
  | insert nm url sidRaw ts =>
    show (truthyIds ((webhookInsert (some store) nm url sidRaw ts).write.getD store)).Nodup
    unfold webhookInsert
    by_cases hc : ((normId sidRaw).isSome &&
        (getBin (some store)).any (fun r => r.submissionId == normId sidRaw)) = true
    · rw [if_pos hc]
      exact hnd
    · rw [if_neg hc]
      have hsubnd : (truthyIds (getBin (some store))).Nodup :=
        (truthyIds_sublist (List.filter_sublist store)).nodup hnd
      cases hn : normId sidRaw with
      | none =>
        have htr : truthyIds ((⟨nm, some url, none, some ts, none, false⟩ : SubmissionRecord) ::
            getBin (some store)) = truthyIds (getBin (some store)) := by
          simp [truthyIds, List.filterMap_cons]
        show (truthyIds ((⟨nm, some url, none, some ts, none, false⟩ : SubmissionRecord) ::
          getBin (some store))).Nodup
        rw [htr]
        exact hsubnd
      | some s =>
        have hse : s.isEmpty = false := normId_some_isEmpty_false sidRaw s hn
        have htr : truthyIds ((⟨nm, some url, some s, some ts, none, false⟩ : SubmissionRecord) ::
            getBin (some store)) = s :: truthyIds (getBin (some store)) := by
          simp [truthyIds, List.filterMap_cons, List.filter_cons, hse]
        show (truthyIds ((⟨nm, some url, some s, some ts, none, false⟩ : SubmissionRecord) ::
          getBin (some store))).Nodup
        rw [htr, List.nodup_cons]
        refine ⟨?_, hsubnd⟩
        intro hmem
        rcases (mem_truthyIds _ s).mp hmem with ⟨⟨r, hr, hrs⟩, _⟩
        apply hc
        rw [hn, Option.isSome_some, Bool.true_and, List.any_eq_true]
        exact ⟨r, hr, beq_iff_eq.mpr hrs⟩
  | sync up o l relay =>
    show (truthyIds (applySync store up o l relay)).Nodup
    unfold applySync
    rw [reconcile_write]
    by_cases hc :
        (processBatch relay (batchSel (missingFromBin up
          (truthyIds ((getBin (some store)).filter (keepEntry (activeIds up))))) o l)).newEntries.length > 0
        ∨ 0 < (getBin (some store)).length -
          ((getBin (some store)).filter (keepEntry (activeIds up))).length
    · rw [if_pos hc, Option.getD_some, truthyIds_append, List.nodup_append]
      refine ⟨?_, ?_, ?_⟩
      · have h1 : (truthyIds ((processBatch relay (batchSel (missingFromBin up
            (truthyIds ((getBin (some store)).filter (keepEntry (activeIds up))))) o l)).newEntries.filter
              (fun e => !((truthyIds ((getBin (some store)).filter (keepEntry (activeIds up)))).contains
                (e.submissionId.getD ""))))).Sublist
            (truthyIds (processBatch relay (batchSel (missingFromBin up
              (truthyIds ((getBin (some store)).filter (keepEntry (activeIds up))))) o l)).newEntries) :=
          truthyIds_sublist (List.filter_sublist _)
        have h2 := truthyIds_newEntries_sublist relay (batchSel (missingFromBin up
          (truthyIds ((getBin (some store)).filter (keepEntry (activeIds up))))) o l)
        have h3 : ((batchSel (missingFromBin up
            (truthyIds ((getBin (some store)).filter (keepEntry (activeIds up))))) o l).map
              (fun s => s.id)).Sublist
            ((missingFromBin up
              (truthyIds ((getBin (some store)).filter (keepEntry (activeIds up))))).map
                (fun s => s.id)) :=
          (batchSel_sublist _ o l).map _
        have h4 : ((missingFromBin up
            (truthyIds ((getBin (some store)).filter (keepEntry (activeIds up))))).map
              (fun s => s.id)).Sublist (up.map (fun s => s.id)) :=
          (List.filter_sublist up).map _
        exact (((h1.trans h2).trans h3).trans h4).nodup hop
      · exact (truthyIds_sublist
          ((List.filter_sublist _).trans (List.filter_sublist store))).nodup hnd
      · intro x hx1 hx2
        rcases (mem_truthyIds _ x).mp hx1 with ⟨⟨r, hr, hrx⟩, _⟩
        have hcond := (List.mem_filter.mp hr).2
        have hgd : r.submissionId.getD "" = x := by
          rw [hrx]
          rfl
        rw [hgd, Bool.not_eq_true', contains_eq_false_iff] at hcond
        exact hcond hx2
    · rw [if_neg hc, Option.getD_none]
      exact hnd

theorem applyOps_nodup (ops : List StoreOp) : ∀ store : List SubmissionRecord,
    (truthyIds store).Nodup → (∀ op ∈ ops, opOk op) →
    (truthyIds (applyOps store ops)).Nodup := by
  induction ops with
  | nil =>
    intro store h _
    exact h
  | cons op rest ih =>
    intro store h hops
    show (truthyIds (List.foldl applyOp (applyOp store op) rest)).Nodup
    exact ih (applyOp store op) (step_nodup store op h (hops op (List.mem_cons_self op rest)))
      (fun o ho => hops o (List.mem_cons_of_mem op ho))

/-- C5 amended: starting from a store with at most one record per
non-empty `submissionId`, any sequence of sequential reconciliation
merge-writes and webhook insert-if-absent calls preserves that bound,
provided each reconciliation call's upstream snapshot carries
pairwise-distinct submission identifiers (the reconciler filters staged
new records against the freshly read store and the webhook skips when
the identifier already matches a stored record, but neither guards
against two upstream submissions sharing one identifier inside a single
batch). -/
theorem store_unique_id_invariant (store0 : List SubmissionRecord) (ops : List StoreOp)
    (h0 : ∀ x : String, x.isEmpty = false →
      store0.countP (fun r => r.submissionId == some x) ≤ 1)
    (hops : ∀ op ∈ ops, opOk op) :
    ∀ x : String, x.isEmpty = false →
      (applyOps store0 ops).countP (fun r => r.submissionId == some x) ≤ 1 :=
  (nodup_truthyIds_iff _).mp
    (applyOps_nodup ops store0 ((nodup_truthyIds_iff store0).mpr h0) hops)

/-- C5 counterexample (as stated, for every upstream set): a single
reconciliation call whose upstream snapshot holds two active submissions
with the same identifier `A` stages and writes both, leaving the store
with two records carrying `submissionId = "A"`. -/
theorem store_unique_id_counterexample :
    ¬((applyOps [] [StoreOp.sync [subA, subA2] 0 5 relayOk]).countP
        (fun r => r.submissionId == some "A") ≤ 1) := by
  decide

/-- Witness for the amended C5 at a concrete input: a reconciliation
call over distinct upstream identifiers followed by a duplicate webhook
insert keeps identifier `A` unique. -/
theorem store_unique_id_invariant_witness :
    (applyOps [] [StoreOp.sync [subA, subB] 0 5 relayOk,
      StoreOp.insert (some "Peach") "img-p" (some "A") "t9"]).countP
        (fun r => r.submissionId == some "A") ≤ 1 :=
  store_unique_id_invariant [] _
    (by
      intro x hx
      simp)
    (by
      intro op hop
      rcases List.mem_cons.mp hop with h | h
      · rw [h]
        show (([subA, subB].map (fun sub => sub.id)).Nodup)
        decide
      · rcases List.mem_cons.mp h with h2 | h2
        · rw [h2]
          trivial
        · simp at h2)
    "A" rfl
